import Mathlib

/-!
# Verification of the db-migrator planning and execution engine

A shallow embedding of the migration engine: the `Version` value type, the
migration catalog and persisted-record data model, the forward and downgrade
planners, the reconciliation step (`saveNewMigrations`), the execution state
machine of `Migrate`/`Downgrade`, and the fulfillment checker.

The embedding follows the multi-service, error-returning variant of the source
(package `db_migrator` with `internal/models` and `internal/repository`).
The relational-store adapter is represented by a `Store` record holding the two
system tables; adapter operations whose implementation is not part of the
analysed sources are modelled from the spec's interface contract and marked as
such in their doc comments.  Go machine integers (`int`, 64-bit) are modelled
as unbounded `Int` with explicit clamping where the source library clamps
(`strconv.Atoi`).  Fallible Go functions returning `error` are modelled with
`Except String` or an `Option String` error component; functions that mutate
the store use explicit state passing.
-/

namespace DbMigrator

/-- Largest value of Go's 64-bit `int`. -/
def int64Max : Int := 9223372036854775807

/-- Smallest value of Go's 64-bit `int`. -/
def int64Min : Int := -9223372036854775808

/-- Decimal value of a list of digit characters. -/
def digitsVal (cs : List Char) : Nat :=
  cs.foldl (fun n c => n * 10 + (c.toNat - 48)) 0

/-- Model of Go's `strconv.Atoi` (i.e. `ParseInt(s, 10, 0)` on a 64-bit
platform): optional sign, at least one decimal digit, no other characters;
returns the value and an ok flag.  On a syntax error the value is `0`, on a
range error the value is clamped to the `int64` range; both report failure. -/
def goAtoi (s : String) : Int × Bool :=
  let cs := s.data
  let signDigits : Int × List Char :=
    match cs with
    | '+' :: rest => (1, rest)
    | '-' :: rest => (-1, rest)
    | _ => (1, cs)
  let sign := signDigits.1
  let ds := signDigits.2
  if ds.isEmpty || !(ds.all Char.isDigit) then (0, false)
  else
    let n : Int := sign * (digitsVal ds : Int)
    if n > int64Max then (int64Max, false)
    else if n < int64Min then (int64Min, false)
    else (n, true)

/-- The integer `strconv.Atoi` leaves in the assigned variable when its error
is discarded (as `ParseVersion` does with `major, _ := strconv.Atoi(...)`). -/
def goAtoiVal (s : String) : Int := (goAtoi s).1

/-- `models.Version`: ordered 4-tuple of Go `int` components. -/
structure Version where
  major : Int
  minor : Int
  patch : Int
  preRelease : Int
  deriving DecidableEq, Repr

/-- The Go zero value `models.Version{}`, i.e. `0.0.0.0`. -/
def Version.zero : Version := ⟨0, 0, 0, 0⟩

/-- `Version.String`: `fmt.Sprintf("%d.%d.%d.%d", ...)`. -/
def Version.string (v : Version) : String :=
  toString v.major ++ "." ++ toString v.minor ++ "." ++
    toString v.patch ++ "." ++ toString v.preRelease

/-- `Version.Equals`: structural equality (`v == version` on the Go struct). -/
def Version.equals (v w : Version) : Bool := v = w

/-- `Version.MoreThan`: lexicographic strict order, component by component,
exactly as the chain of comparisons in the source. -/
def Version.moreThan (v w : Version) : Bool :=
  if v.major > w.major then true
  else if v.major < w.major then false
  else if v.minor > w.minor then true
  else if v.minor < w.minor then false
  else if v.patch > w.patch then true
  else if v.patch < w.patch then false
  else if v.preRelease > w.preRelease then true
  else if v.preRelease < w.preRelease then false
  else false

/-- `Version.MoreOrEqual`. -/
def Version.moreOrEqual (v w : Version) : Bool := v.moreThan w || v.equals w

/-- `Version.LessThan`. -/
def Version.lessThan (v w : Version) : Bool := !(v.moreOrEqual w)

/-- `Version.LessOrEqual`. -/
def Version.lessOrEqual (v w : Version) : Bool := !(v.moreThan w)

/-- Model of Go's `strings.Split(s, ".")` on the character sequence: the
substrings between consecutive dots (possibly empty), one more substring than
there are dots. -/
def splitDot : List Char → List (List Char)
  | [] => [[]]
  | c :: rest =>
      match splitDot rest with
      | [] => [[]]
      | h :: t => if c = '.' then [] :: h :: t else (c :: h) :: t

/-- `strings.Split(versionString, ".")`. -/
def goSplitDot (versionString : String) : List String :=
  (splitDot versionString.data).map List.asString

/-- `models.ParseVersion`: split on `"."`; an error exactly when there are not
4 components; each component converted with `strconv.Atoi`, the conversion
error being discarded (`major, _ := strconv.Atoi(versions[0])` etc.). -/
def ParseVersion (versionString : String) : Except String Version :=
  match goSplitDot versionString with
  | [a, b, c, d] =>
      .ok ⟨goAtoiVal a, goAtoiVal b, goAtoiVal c, goAtoiVal d⟩
  | _ => .error ("invalid Version format: " ++ versionString)

/-- The dynamic value handed to `Version.Scan` by the sql driver: a string, a
byte slice (represented by the string it decodes to), or any other type. -/
inductive ScanValue where
  | str (s : String)
  | bytes (s : String)
  | other
  deriving DecidableEq

/-- `Version.Scan`: on `string`/`[]byte`, parse and assign, returning the parse
error if any; in the `default` branch an "invalid type" error is constructed
but the function unconditionally ends in `return nil`, so the error is
discarded and the receiver is left unchanged.  Result: (receiver after the
call, returned error). -/
def Version.scan (v : Version) (value : ScanValue) : Version × Option String :=
  match value with
  | .str s =>
      match ParseVersion s with
      | .ok v' => (v', none)
      | .error e => (v, some e)
  | .bytes s =>
      match ParseVersion s with
      | .ok v' => (v', none)
      | .error e => (v, some e)
  | .other =>
      -- err = errors.New("invalid type") is assigned and then dropped by
      -- the trailing `return nil`.
      (v, none)

/-- FNV-1a offset basis (32 bit). -/
def fnvOffsetBasis : Nat := 2166136261

/-- FNV-1a prime (32 bit). -/
def fnvPrime : Nat := 16777619

/-- 32-bit FNV-1a over a byte sequence, as `hash/fnv.New32a` computes it. -/
def fnv32a (bytes : List Nat) : Nat :=
  bytes.foldl (fun h b => ((h ^^^ b) * fnvPrime) % 2 ^ 32) fnvOffsetBasis

/-- UTF-8 encoding of one character, as Go's `[]byte(string)` produces it. -/
def utf8Bytes (c : Char) : List Nat :=
  let n := c.toNat
  if n < 128 then [n]
  else if n < 2048 then
    [192 ||| (n >>> 6), 128 ||| (n &&& 63)]
  else if n < 65536 then
    [224 ||| (n >>> 12), 128 ||| ((n >>> 6) &&& 63), 128 ||| (n &&& 63)]
  else
    [240 ||| (n >>> 18), 128 ||| ((n >>> 12) &&& 63),
     128 ||| ((n >>> 6) &&& 63), 128 ||| (n &&& 63)]

/-- The byte sequence of a string (Go `[]byte(s)`). -/
def stringBytes (s : String) : List Nat :=
  s.data.foldr (fun c acc => utf8Bytes c ++ acc) []

/-- `getMigrationIdentifier`: FNV-1a hash of the bytes of
`version.String() + migrationType`. -/
def getMigrationIdentifier (version : Version) (migrationType : String) : Nat :=
  fnv32a (stringBytes (version.string ++ migrationType))

/-- `TypeBaseline`. -/
def TypeBaseline : String := "baseline"

/-- `TypeVersioned`. -/
def TypeVersioned : String := "versioned"

/-- `TypeRepeatable`. -/
def TypeRepeatable : String := "repeatable"

/-- `models.StateSuccess`. -/
def StateSuccess : String := "success"

/-- `models.StateFailure`. -/
def StateFailure : String := "failure"

/-- `models.StateUndone`. -/
def StateUndone : String := "undone"

/-- `models.StateRegistered`. -/
def StateRegistered : String := "registered"

/-- `models.StateSkipped`. -/
def StateSkipped : String := "skipped"

/-- `models.StateNotFound`. -/
def StateNotFound : String := "not found"

/-- `DbDependency`: declared cross-service dependency of a migration. -/
structure DbDependency where
  name : String
  version : String
  strict : Bool
  deriving DecidableEq

/-- A catalog entry (`Migration`).  The forward/reverse callbacks `UpF`/`DownF`
and the action's database effect are external; the embedding records whether a
callback is present (`upF`, `downF`) and the string value the optional
`CheckSum` function returns against the live store (`checkSum = none` models a
nil function). -/
structure Migration where
  migrationType : String
  version : String
  description : String
  isTransactional : Bool
  isAllowFailure : Bool
  up : String
  down : String
  upF : Bool
  downF : Bool
  checkSum : Option String
  identifier : Nat
  repeatUnconditional : Bool
  dependency : List DbDependency
  deriving DecidableEq

/-- `models.MigrationModel`: a persisted migration record (timestamps omitted:
no verified property mentions them). -/
structure MigrationModel where
  id : Nat
  rank : Int
  type : String
  version : Version
  description : String
  checksum : String
  state : String
  deriving DecidableEq, Repr

/-- The backing store for one service: the two system tables.  `version` is
the single row of the `version` table (`none` = no row, i.e. `ErrNotFound`);
`migrations` the rows of the `migrations` table; `nextId` the store-assigned
primary key counter. -/
structure Store where
  hasVersionTable : Bool
  hasMigrationsTable : Bool
  version : Option Version
  migrations : List MigrationModel
  nextId : Nat
  deriving DecidableEq

/-- `repository.GetVersion` (from `internal/repository/version.go`): the row of
the `version` table, or `ErrNotFound`. -/
def Repository.getVersion (st : Store) : Except String Version :=
  match st.version with
  | some v => .ok v
  | none => .error "record not found"

/-- `repository.SaveVersion` (from `internal/repository/version.go`):
insert-if-absent else update the single row. -/
def Repository.saveVersion (st : Store) (v : Version) : Store :=
  { st with version := some v }

/-- Modelled from the spec: `GetMigrationsSorted(order) -> [MigrationRecord]`
(the adapter source is not among the analysed files).  Every consumer in the
verified claims re-sorts the returned rows, so the adapter's own ordering is
immaterial; the rows are returned as stored. -/
def Repository.getMigrations (st : Store) : List MigrationModel :=
  st.migrations

/-- A `repository.SaveMigrationRequest`. -/
structure SaveMigrationRequest where
  rank : Int
  type : String
  version : Version
  description : String
  state : String
  deriving DecidableEq

/-- Modelled from the spec: `SaveMigration(request) -> MigrationRecord`
inserts a row and assigns the store-generated id. -/
def Repository.saveMigration (st : Store) (req : SaveMigrationRequest) :
    MigrationModel × Store :=
  let m : MigrationModel :=
    { id := st.nextId, rank := req.rank, type := req.type,
      version := req.version, description := req.description,
      checksum := "", state := req.state }
  (m, { st with migrations := st.migrations ++ [m], nextId := st.nextId + 1 })

/-- Modelled from the spec: `UpdateMigrationState(record, newState)` updates
the state column of the row with the record's id. -/
def Repository.updateMigrationState (st : Store) (m : MigrationModel)
    (state : String) : Store :=
  { st with migrations :=
      st.migrations.map fun r => if r.id = m.id then { r with state := state } else r }

/-- Modelled from the spec: `UpdateMigrationStateExecuted(record, newState,
checksum)` updates state and checksum (and stamps the execution time, which the
embedding omits). -/
def Repository.updateMigrationStateExecuted (st : Store) (m : MigrationModel)
    (state : String) (checksum : String) : Store :=
  { st with migrations :=
      st.migrations.map fun r =>
        if r.id = m.id then { r with state := state, checksum := checksum } else r }

/-- `ServiceInfo`: per-service registration state.  Connection hooks are
external functions; the embedding records their presence.  The
`registeredMigrationsSet` map is only ever consulted for key membership, so it
is modelled by its key set. -/
structure ServiceInfo where
  hasConnectFunc : Bool
  hasDisconnectFunc : Bool
  targetVersion : Version
  registeredMigrations : List Migration
  registeredMigrationsSet : List Nat
  deriving DecidableEq

/-- The Go zero-value `ServiceInfo` that `Register` creates for an unknown
service name: nil hooks, zero target version, empty catalog. -/
def ServiceInfo.fresh : ServiceInfo :=
  { hasConnectFunc := false, hasDisconnectFunc := false,
    targetVersion := Version.zero, registeredMigrations := [],
    registeredMigrationsSet := [] }

/-- The manager's service map, as an association list (first binding wins). -/
abbrev Services := List (String × ServiceInfo)

/-- Map lookup `m.services[name]`. -/
def Services.lookup (ss : Services) (name : String) : Option ServiceInfo :=
  match List.find? (fun p => p.1 = name) ss with
  | some p => some p.2
  | none => none

/-- Map store `m.services[name] = svc`. -/
def Services.insert (ss : Services) (name : String) (svc : ServiceInfo) : Services :=
  match ss with
  | [] => [(name, svc)]
  | p :: rest =>
      if p.1 = name then (name, svc) :: rest
      else p :: Services.insert rest name svc

/-- The registration loop of `Register`: for each entry, parse its version
(aborting on a parse error, keeping entries already registered), compute its
identifier, silently drop it if the identifier is already present, otherwise
assign the identifier and append the entry. -/
def registerLoop (svc : ServiceInfo) : List Migration → ServiceInfo × Option String
  | [] => (svc, none)
  | mig :: rest =>
      match ParseVersion mig.version with
      | .error e => (svc, some e)
      | .ok migrationVersion =>
          let identifier := getMigrationIdentifier migrationVersion mig.migrationType
          if svc.registeredMigrationsSet.contains identifier then
            registerLoop svc rest
          else
            registerLoop
              { svc with
                registeredMigrationsSet := svc.registeredMigrationsSet ++ [identifier],
                registeredMigrations :=
                  svc.registeredMigrations ++ [{ mig with identifier := identifier }] }
              rest

/-- `MigrationManager.Register`: if the service name is unknown, a fresh
zero-value `ServiceInfo` is created and stored under the name (no error);
then the entries are registered through `registerLoop`. -/
def Register (ss : Services) (serviceName : String) (migrationsStruct : List Migration) :
    Services × Option String :=
  let svc := (ss.lookup serviceName).getD ServiceInfo.fresh
  let res := registerLoop svc migrationsStruct
  (ss.insert serviceName res.1, res.2)

/-- `migrationIsNew`: a registered entry is new when no persisted record hashes
to its identifier. -/
def migrationIsNew (migration : Migration) (savedMigrations : List MigrationModel) : Bool :=
  savedMigrations.all fun saved =>
    getMigrationIdentifier saved.version saved.type ≠ migration.identifier

/-- The catalog scan of `findMigration`: each entry's version string is
parsed (a parse failure aborts the call) and the entry's identifier compared
with the persisted record's. -/
def findMigrationScan (target : Nat) :
    List Migration → Except String (Option Migration)
  | [] => .ok none
  | mig :: rest =>
      match ParseVersion mig.version with
      | .error e => .error e
      | .ok v =>
          if getMigrationIdentifier v mig.migrationType = target then .ok (some mig)
          else findMigrationScan target rest

/-- `MigrationManager.findMigration`: scan the service catalog for the entry
whose identifier matches the persisted record's identifier. -/
def findMigration (svc : ServiceInfo) (migrationModel : MigrationModel) :
    Except String (Option Migration) :=
  findMigrationScan (getMigrationIdentifier migrationModel.version migrationModel.type)
    svc.registeredMigrations

/-- Insert an element into a sorted list, before the first element it is
`le`-below-or-tied-with from the left; used to realize Go's stable sorts. -/
def insertSorted (le : MigrationModel → MigrationModel → Bool)
    (x : MigrationModel) : List MigrationModel → List MigrationModel
  | [] => [x]
  | y :: ys => if le x y then x :: y :: ys else y :: insertSorted le x ys

/-- Stable insertion sort with respect to a total preorder `le`: the unique
stable order of the input with no `le`-inversion — the order Go's
`sort.SliceStable` produces when `le a b = !less(b, a)`. -/
def sortBy (le : MigrationModel → MigrationModel → Bool) :
    List MigrationModel → List MigrationModel
  | [] => []
  | x :: xs => insertSorted le x (sortBy le xs)

/-- Stable ascending sort of records by version, as `sort.SliceStable` with
comparator `less(i, j) = v_j.MoreThan(v_i)` produces: the unique stable order
with no inversion for the total preorder `LessOrEqual`. -/
def sortMigrationsAsc (l : List MigrationModel) : List MigrationModel :=
  sortBy (fun a b => a.version.lessOrEqual b.version) l

/-- Stable descending sort of records by version, as `sort.SliceStable` with
comparator `less(i, j) = v_i.MoreThan(v_j)` produces. -/
def sortMigrationsDesc (l : List MigrationModel) : List MigrationModel :=
  sortBy (fun a b => b.version.lessOrEqual a.version) l

/-- The requests `saveNewMigrations` builds from catalog entries absent from
the persisted history (state `registered`, rank assigned later); the first
version parse failure aborts. -/
def buildNewMigrations (registered : List Migration)
    (savedMigrations : List MigrationModel) :
    Except String (List SaveMigrationRequest) :=
  match registered with
  | [] => .ok []
  | mig :: rest =>
      if migrationIsNew mig savedMigrations then
        match ParseVersion mig.version with
        | .error e => .error e
        | .ok pv =>
            match buildNewMigrations rest savedMigrations with
            | .error e => .error e
            | .ok reqs =>
                .ok ({ rank := 0, type := mig.migrationType, version := pv,
                       description := mig.description,
                       state := StateRegistered } :: reqs)
      else buildNewMigrations rest savedMigrations

/-- `insertSorted` for staged requests. -/
def insertSortedReq (x : SaveMigrationRequest) :
    List SaveMigrationRequest → List SaveMigrationRequest
  | [] => [x]
  | y :: ys =>
      if x.version.lessOrEqual y.version then x :: y :: ys
      else y :: insertSortedReq x ys

/-- Stable ascending sort of the staged requests (`sort.SliceStable` with
`less(i, j) = v_i.LessThan(v_j)`). -/
def sortRequestsAsc : List SaveMigrationRequest → List SaveMigrationRequest
  | [] => []
  | x :: xs => insertSortedReq x (sortRequestsAsc xs)

/-- The transaction body of `saveNewMigrations`: the staged requests receive
ranks `maxRank + 1, maxRank + 2, …` in order and are inserted one by one, each
inserted row being appended to the in-memory list of saved migrations. -/
def insertNewMigrations (maxRank : Int) (idx : Nat)
    (acc : List MigrationModel) (st : Store) :
    List SaveMigrationRequest → List MigrationModel × Store
  | [] => (acc, st)
  | req :: rest =>
      let req' := { req with rank := maxRank + ((idx : Int) + 1) }
      let res := Repository.saveMigration st req'
      insertNewMigrations maxRank (idx + 1) (acc ++ [res.1]) res.2 rest

/-- `maxRank` computation of `saveNewMigrations`. -/
def maxRankOf (savedMigrations : List MigrationModel) : Int :=
  savedMigrations.foldl (fun mx m => if m.rank > mx then m.rank else mx) 0

/-- The version-regression guard of `saveNewMigrations`: an error exactly when
some persisted record's version is `MoreThan` some staged request's version. -/
def versionRegressionGuard (newMigrations : List SaveMigrationRequest)
    (savedMigrations : List MigrationModel) : Bool :=
  newMigrations.any fun n => savedMigrations.any fun s => s.version.moreThan n.version

/-- `MigrationManager.saveNewMigrations` (reconciliation): fetch the persisted
records, compute the maximum rank, stage every catalog entry that is new by
identifier, fail with a structural error if any staged version is below an
already-persisted one (before any write), then sort the staged requests by
ascending version, assign ranks and insert them in one transaction.  Returns
(result, store): on an error the store is the one reached when the error
occurred; the guard fires before the transaction, leaving the store
untouched. -/
def saveNewMigrations (svc : ServiceInfo) (st : Store) :
    Except String (List MigrationModel) × Store :=
  let savedMigrations := Repository.getMigrations st
  let maxRank := maxRankOf savedMigrations
  match buildNewMigrations svc.registeredMigrations savedMigrations with
  | .error e => (.error e, st)
  | .ok newMigrations =>
      if versionRegressionGuard newMigrations savedMigrations then
        (.error "attempting to register migration with lower Version than existing one", st)
      else
        let sorted := sortRequestsAsc newMigrations
        let res := insertNewMigrations maxRank 0 savedMigrations st sorted
        (.ok res.1, res.2)

/-- `getSavedAppVersion` as the planners use it: the saved version row, the
zero value `models.Version{}` standing in when the lookup errs (the planners
discard the error: `version, _ := p.manager.getSavedAppVersion(...)`). -/
def savedAppVersionD (st : Store) : Version :=
  match Repository.getVersion st with
  | .ok v => v
  | .error _ => Version.zero

/-- The filter the versioned pass of the forward planner applies to each
record of the (sorted) persisted history, mirroring the `continue` chain of
`planMigrationsVersioned`. -/
def versionedPassKeep (targetVersion : Version) (savedAppVersion : Version)
    (baseline : Option MigrationModel) (m : MigrationModel) : Bool :=
  m.type = TypeVersioned &&
  !(m.state = StateSuccess) &&
  !(m.state = StateSkipped) &&
  !(m.version.moreThan targetVersion) &&
  !(m.version.lessOrEqual savedAppVersion) &&
  (match baseline with
   | some b => !(b.version.moreThan m.version)
   | none => true)

/-- `migratePlanner.planMigrationsVersioned`: stable-sort the persisted
records by ascending version, then append to the plan every record that
survives the filter chain.  `baseline` is the baseline planned by pass 1, if
any (`baselineIsPlanned` / `plannedBaseline`). -/
def planMigrationsVersioned (targetVersion : Version) (st : Store)
    (baseline : Option MigrationModel) (savedMigrations : List MigrationModel) :
    List MigrationModel :=
  (sortMigrationsAsc savedMigrations).filter
    (versionedPassKeep targetVersion (savedAppVersionD st) baseline)

/-- The filter the downgrade planner applies to each record of the
(descending-sorted) persisted history, mirroring the `continue` chain of
`downgradePlanner.MakePlan`. -/
def downgradeKeep (targetVersion : Version) (savedAppVersion : Version)
    (m : MigrationModel) : Bool :=
  m.type = TypeVersioned &&
  !(m.version.moreThan savedAppVersion) &&
  !(m.version.lessOrEqual targetVersion) &&
  !(m.state = StateUndone)

/-- `downgradePlanner.MakePlan`: stable-sort the persisted records by
descending version and append every record that survives the filter chain. -/
def downgradeMakePlan (targetVersion : Version) (st : Store)
    (savedMigrations : List MigrationModel) : List MigrationModel :=
  (sortMigrationsDesc savedMigrations).filter
    (downgradeKeep targetVersion (savedAppVersionD st))

/-- The externally-visible state of a dependency's service during validation:
whether `ConnectFunc` is registered, and the dependency's own store reached
through it. -/
structure DepService where
  hasConnectFunc : Bool
  store : Store

/-- The per-dependency validation of `executeMigration`: resolve the named
service, require a connect hook, connect, require the version table, read the
saved version (`GetVersion` error propagates), reject the zero version
(`version.Equals(models.Version{})`), parse the declared version, then compare:
under `strict` anything but exact equality fails, otherwise a live version
below the declared one fails. -/
def checkDependency (services : String → Option DepService)
    (dependency : DbDependency) : Except String Unit :=
  match services dependency.name with
  | none => .error "dependency is not valid"
  | some depsService =>
      if !depsService.hasConnectFunc then .error "dependency is not valid"
      else if !depsService.store.hasVersionTable then .error "dependency is not valid"
      else
        match Repository.getVersion depsService.store with
        | .error e => .error e
        | .ok version =>
            if version.equals Version.zero then .error "dependency is not valid"
            else
              match ParseVersion dependency.version with
              | .error e => .error e
              | .ok dependencyVersion =>
                  if dependency.strict && !(version.equals dependencyVersion) then
                    .error "dependency version is not valid"
                  else if version.lessThan dependencyVersion then
                    .error "dependency version is not valid"
                  else .ok ()

/-- The dependency loop of `executeMigration`: each declared dependency is
validated in order, the first failure aborting. -/
def validateDependencies (services : String → Option DepService) :
    List DbDependency → Except String Unit
  | [] => .ok ()
  | d :: rest =>
      match checkDependency services d with
      | .error e => .error e
      | .ok _ => validateDependencies services rest

/-- `MigrationManager.executeMigration` for one catalog entry: the action
modality check (`Up` and `UpF` must not both be empty nor both set), then
dependency validation, then the action itself (transactional or direct), whose
outcome against the live store is the external `actionResult` oracle.  Returns
the call's result together with a flag telling whether the action was run
(i.e. whether any mutation of the service's store was attempted). -/
def executeMigration (services : String → Option DepService)
    (actionResult : Except String Unit) (migration : Migration) :
    Except String Unit × Bool :=
  if (migration.up.length = 0 && !migration.upF) ||
     (migration.up.length > 0 && migration.upF) then
    (.error "fail to migrate, because Up and upf is empty or both is not nil", false)
  else
    match validateDependencies services migration.dependency with
    | .error e => (.error e, false)
    | .ok _ => (actionResult, true)

/-- The baseline supersession loop of `saveStateOnSuccessfulMigration`: every
record of the in-memory history strictly before the executed baseline's id is
transitioned to `skipped`. -/
def markSkippedBefore (st : Store) (baselineId : Nat) :
    List MigrationModel → Store
  | [] => st
  | m :: rest =>
      if baselineId = m.id then st
      else markSkippedBefore (Repository.updateMigrationState st m StateSkipped)
        baselineId rest

/-- `MigrationManager.saveStateOnSuccessfulMigration`: parse the entry's
version; for `versioned` overwrite the version row, for `baseline` overwrite
the version row and mark every earlier saved record skipped; finally persist
`success` with the checksum the entry's `CheckSum` function (default: constant
empty string) returns. -/
def saveStateOnSuccessfulMigration (savedMigrations : List MigrationModel)
    (migrationModel : MigrationModel) (migration : Migration) (st : Store) :
    Except String Store :=
  match ParseVersion migration.version with
  | .error e => .error e
  | .ok migrationVersion =>
      let st1 :=
        if migration.migrationType = TypeVersioned then
          Repository.saveVersion st migrationVersion
        else if migration.migrationType = TypeBaseline then
          markSkippedBefore (Repository.saveVersion st migrationVersion)
            migrationModel.id savedMigrations
        else st
      .ok (Repository.updateMigrationStateExecuted st1 migrationModel
            StateSuccess (migration.checkSum.getD ""))

/-- The plan-execution loop of `MigrationManager.Migrate`, one plan entry at a
time: resolve the catalog entry (a missing entry is tolerated only for
`repeatable` records, which are persisted `not found`), execute it, persist
`failure` and stop on a non-allow-failure error, otherwise persist the success
outcome and continue.  `actionResult` is the external outcome of running each
entry's action.  Returns the final store and the call's result. -/
def migrateLoop (svc : ServiceInfo) (services : String → Option DepService)
    (actionResult : MigrationModel → Migration → Except String Unit)
    (savedMigrations : List MigrationModel) :
    Store → List MigrationModel → Store × Except String Unit
  | st, [] => (st, .ok ())
  | st, migrationModel :: plan =>
      match findMigration svc migrationModel with
      | .error e => (st, .error e)
      | .ok none =>
          if !(migrationModel.type = TypeRepeatable) then
            (st, .error "migration not found")
          else
            migrateLoop svc services actionResult savedMigrations
              (Repository.updateMigrationState st migrationModel StateNotFound) plan
      | .ok (some migration) =>
          let execRes := executeMigration services
            (actionResult migrationModel migration) migration
          match execRes.1 with
          | .error e =>
              if !migration.isAllowFailure then
                (Repository.updateMigrationState st migrationModel StateFailure, .error e)
              else
                match saveStateOnSuccessfulMigration savedMigrations
                    migrationModel migration st with
                | .error e' => (st, .error e')
                | .ok st' => migrateLoop svc services actionResult savedMigrations st' plan
          | .ok _ =>
              match saveStateOnSuccessfulMigration savedMigrations
                  migrationModel migration st with
              | .error e' => (st, .error e')
              | .ok st' => migrateLoop svc services actionResult savedMigrations st' plan

/-- The previous-version scan of `saveVersionDowngrade`: walk the filtered,
ascending-sorted history keeping the element seen on the previous iteration;
stop at the first `versioned` record whose version equals the undone record's
version and yield the previous element's version (any type), or the zero
version when the match is the first element or no element matches. -/
def prevVersionScan (undoneMigrationVersion : Version) :
    List MigrationModel → Option MigrationModel → Version
  | [], _ => Version.zero
  | m :: rest, prev =>
      if m.type = TypeVersioned && m.version.equals undoneMigrationVersion then
        match prev with
        | none => Version.zero
        | some p => p.version
      else prevVersionScan undoneMigrationVersion rest (some m)

/-- `MigrationManager.saveVersionDowngrade`: drop `repeatable` records from
the history, stable-sort the rest by ascending version, and compute the
version to save with `prevVersionScan`. -/
def saveVersionDowngrade (migrationModel : MigrationModel)
    (savedMigrations : List MigrationModel) : Version :=
  let filteredMigrations := savedMigrations.filter fun m => !(m.type = TypeRepeatable)
  prevVersionScan migrationModel.version (sortMigrationsAsc filteredMigrations) none

/-- `MigrationManager.saveStateAfterDowngrading`: persist state `undone` for
the undone record with the value its `CheckSum` function (default: constant
empty string) returns against the live store, then overwrite the version row
with the `saveVersionDowngrade` result. -/
def saveStateAfterDowngrading (savedMigrations : List MigrationModel)
    (migrationModel : MigrationModel) (migration : Migration) (st : Store) : Store :=
  let st1 := Repository.updateMigrationStateExecuted st migrationModel StateUndone
    (migration.checkSum.getD "")
  Repository.saveVersion st1 (saveVersionDowngrade migrationModel savedMigrations)

/-- `MigrationManager.hasFailedMigrations`: `false` when either system table
is missing, otherwise whether any persisted record is in state `failure`.  (In
the embedding the adapter read cannot fail, so the Go error result is always
nil.) -/
def hasFailedMigrations (st : Store) : Bool :=
  if !st.hasVersionTable || !st.hasMigrationsTable then false
  else (Repository.getMigrations st).any fun m => m.state = StateFailure

/-- `MigrationManager.hasForthcomingMigrations`: `true` when a system table is
missing; otherwise read the saved version (propagating its error), and report
`true` when some persisted record at or above the saved version is not
`success`, or some registered entry is not persisted at all. -/
def hasForthcomingMigrations (svc : ServiceInfo) (st : Store) : Except String Bool :=
  if !st.hasVersionTable || !st.hasMigrationsTable then .ok true
  else
    match Repository.getVersion st with
    | .error e => .error e
    | .ok savedVersion =>
        let savedMigrations := Repository.getMigrations st
        if savedMigrations.any (fun m =>
            m.version.moreOrEqual savedVersion && !(m.state = StateSuccess)) then
          .ok true
        else if svc.registeredMigrations.any (fun r => migrationIsNew r savedMigrations) then
          .ok true
        else .ok false

/-- The registered-entry loop of `targetVersionNotLatest`: parse each entry's
version (propagating the parse error) and report `true` at the first entry
above the target version. -/
def targetNotLatestScan (targetVersion : Version) :
    List Migration → Except String Bool
  | [] => .ok false
  | r :: rest =>
      match ParseVersion r.version with
      | .error e => .error e
      | .ok migrationVersion =>
          if !(targetVersion.moreOrEqual migrationVersion) then .ok true
          else targetNotLatestScan targetVersion rest

/-- `MigrationManager.targetVersionNotLatest`: `false` when a system table is
missing; otherwise `true` when the target version is below some persisted
record's version or below some registered entry's version. -/
def targetVersionNotLatest (svc : ServiceInfo) (st : Store) : Except String Bool :=
  if !st.hasVersionTable || !st.hasMigrationsTable then .ok false
  else if (Repository.getMigrations st).any
      (fun m => !(svc.targetVersion.moreOrEqual m.version)) then .ok true
  else targetNotLatestScan svc.targetVersion svc.registeredMigrations

/-- The outcome of `CheckFulfillment`: the reason error returned (if any), the
ok flag, and the hard error, folded into one result type. -/
inductive FulfillmentResult where
  | forthcoming
  | failed
  | targetNotLatest
  | fulfilled
  | checkError (e : String)
  deriving DecidableEq

/-- `MigrationManager.CheckFulfillment`: the three conditions checked in
order — forthcoming migrations, then failed migrations, then target version
not latest — returning the reason of the first condition that holds, and
`fulfilled` only when all three fail. -/
def checkFulfillment (svc : ServiceInfo) (st : Store) : FulfillmentResult :=
  match hasForthcomingMigrations svc st with
  | .error e => .checkError e
  | .ok true => .forthcoming
  | .ok false =>
      if hasFailedMigrations st then .failed
      else
        match targetVersionNotLatest svc st with
        | .error e => .checkError e
        | .ok true => .targetNotLatest
        | .ok false => .fulfilled

/-! ## Concrete fixtures used by witnesses and counterexamples -/

/-- A versioned catalog entry at version 1.0.0.1 with an inline statement. -/
def exmVersioned : Migration :=
  { migrationType := TypeVersioned, version := "1.0.0.1", description := "add column",
    isTransactional := true, isAllowFailure := false,
    up := "alter table t add column c text", down := "alter table t drop column c",
    upF := false, downF := false, checkSum := none,
    identifier := getMigrationIdentifier ⟨1, 0, 0, 1⟩ TypeVersioned,
    repeatUnconditional := false, dependency := [] }

/-- A repeatable catalog entry at version 1.0.0.0 with an inline statement. -/
def exmRepeatable : Migration :=
  { migrationType := TypeRepeatable, version := "1.0.0.0", description := "refresh view",
    isTransactional := true, isAllowFailure := false,
    up := "create or replace view v as select 1", down := "",
    upF := false, downF := false, checkSum := none,
    identifier := getMigrationIdentifier ⟨1, 0, 0, 0⟩ TypeRepeatable,
    repeatUnconditional := false, dependency := [] }

/-- A persisted versioned record at version 1.0.0.0 in state `success`. -/
def exrVersioned100 : MigrationModel :=
  { id := 1, rank := 1, type := TypeVersioned, version := ⟨1, 0, 0, 0⟩,
    description := "init", checksum := "", state := StateSuccess }

/-- A persisted baseline record at version 1.0.0.0 in state `success`. -/
def exrBaseline100 : MigrationModel :=
  { id := 1, rank := 1, type := TypeBaseline, version := ⟨1, 0, 0, 0⟩,
    description := "baseline", checksum := "", state := StateSuccess }

/-- A persisted versioned record at version 1.0.0.1 in state `success`. -/
def exrVersioned101 : MigrationModel :=
  { id := 2, rank := 2, type := TypeVersioned, version := ⟨1, 0, 0, 1⟩,
    description := "add column", checksum := "", state := StateSuccess }

/-- A store whose history is the single versioned record at 1.0.0.0. -/
def exStore100 : Store :=
  { hasVersionTable := true, hasMigrationsTable := true,
    version := some ⟨1, 0, 0, 0⟩, migrations := [exrVersioned100], nextId := 2 }

/-- A persisted versioned record at version 1.0.0.0 in state `failure`. -/
def exrFailed100 : MigrationModel :=
  { id := 1, rank := 1, type := TypeVersioned, version := ⟨1, 0, 0, 0⟩,
    description := "init", checksum := "", state := StateFailure }

/-- A service with an empty catalog targeting version 1.0.0.1. -/
def exSvcEmptyCatalog : ServiceInfo :=
  { hasConnectFunc := true, hasDisconnectFunc := true,
    targetVersion := ⟨1, 0, 0, 1⟩, registeredMigrations := [],
    registeredMigrationsSet := [] }

/-- A store at saved version 1.0.0.1 whose history holds a failed record below
the saved version and a successful record at the saved version. -/
def exStoreWithFailure : Store :=
  { hasVersionTable := true, hasMigrationsTable := true,
    version := some ⟨1, 0, 0, 1⟩,
    migrations := [exrFailed100, exrVersioned101], nextId := 3 }

/-- A service whose catalog holds the repeatable entry at 1.0.0.0, against a
history already containing a versioned record at the same version 1.0.0.0. -/
def exSvcRepeatable : ServiceInfo :=
  { hasConnectFunc := true, hasDisconnectFunc := true,
    targetVersion := ⟨2, 0, 0, 0⟩, registeredMigrations := [exmRepeatable],
    registeredMigrationsSet := [exmRepeatable.identifier] }

/-- A catalog entry at version 0.9.0.0, strictly below the persisted history
of `exStore100`. -/
def exmVersionedLow : Migration :=
  { migrationType := TypeVersioned, version := "0.9.0.0", description := "late arrival",
    isTransactional := true, isAllowFailure := false,
    up := "alter table t add column d text", down := "",
    upF := false, downF := false, checkSum := none,
    identifier := getMigrationIdentifier ⟨0, 9, 0, 0⟩ TypeVersioned,
    repeatUnconditional := false, dependency := [] }

/-- A service whose catalog holds only the low entry at 0.9.0.0. -/
def exSvcLow : ServiceInfo :=
  { hasConnectFunc := true, hasDisconnectFunc := true,
    targetVersion := ⟨2, 0, 0, 0⟩, registeredMigrations := [exmVersionedLow],
    registeredMigrationsSet := [exmVersionedLow.identifier] }

/-- The persisted record matching `exmVersioned`, freshly registered. -/
def exrRegistered101 : MigrationModel :=
  { id := 2, rank := 2, type := TypeVersioned, version := ⟨1, 0, 0, 1⟩,
    description := "add column", checksum := "", state := StateRegistered }

/-- A service whose catalog holds the versioned entry at 1.0.0.1. -/
def exSvcVersioned : ServiceInfo :=
  { hasConnectFunc := true, hasDisconnectFunc := true,
    targetVersion := ⟨1, 0, 0, 1⟩, registeredMigrations := [exmVersioned],
    registeredMigrationsSet := [exmVersioned.identifier] }

/-! ## Order-theoretic facts about `Version` comparisons -/

theorem Version.eq_iff (v w : Version) :
    v = w ↔ (v.major = w.major ∧ v.minor = w.minor ∧ v.patch = w.patch ∧
      v.preRelease = w.preRelease) := by
  cases v; cases w; simp

theorem Version.moreThan_iff (v w : Version) :
    v.moreThan w = true ↔
      (w.major < v.major ∨ (w.major = v.major ∧
        (w.minor < v.minor ∨ (w.minor = v.minor ∧
          (w.patch < v.patch ∨ (w.patch = v.patch ∧
            w.preRelease < v.preRelease)))))) := by
  unfold Version.moreThan
  split_ifs <;> simp_all <;> omega

theorem Version.lessOrEqual_iff (v w : Version) :
    v.lessOrEqual w = true ↔ Version.moreThan v w = false := by
  simp [Version.lessOrEqual]

theorem Version.moreThan_eq_false_iff (v w : Version) :
    v.moreThan w = false ↔
      ¬ (w.major < v.major ∨ (w.major = v.major ∧
        (w.minor < v.minor ∨ (w.minor = v.minor ∧
          (w.patch < v.patch ∨ (w.patch = v.patch ∧
            w.preRelease < v.preRelease)))))) := by
  rw [← Version.moreThan_iff]
  simp

theorem Version.lessThan_eq_moreThan (v w : Version) :
    v.lessThan w = w.moreThan v := by
  rcases hb : w.moreThan v with _ | _
  · simp only [Version.lessThan, Version.moreOrEqual, Version.equals]
    rw [Version.moreThan_eq_false_iff] at hb
    have hm : v.moreThan w = true ∨ v = w := by
      rw [Version.moreThan_iff, Version.eq_iff]
      omega
    rcases hm with hm | hm
    · simp [hm]
    · simp [hm]
  · simp only [Version.lessThan, Version.moreOrEqual, Version.equals]
    rw [Version.moreThan_iff] at hb
    have h1 : v.moreThan w = false := by
      rw [Version.moreThan_eq_false_iff]; omega
    have h2 : v ≠ w := by
      rw [Ne, Version.eq_iff]; omega
    simp [h1, h2]

theorem Version.moreOrEqual_eq_not_lessThan (v w : Version) :
    v.moreOrEqual w = !(v.lessThan w) := by
  simp [Version.lessThan]

theorem Version.lessOrEqual_total (a b : Version) :
    (a.lessOrEqual b || b.lessOrEqual a) = true := by
  simp only [Version.lessOrEqual, Bool.or_eq_true, Bool.not_eq_true']
  by_contra h
  push_neg at h
  rcases h with ⟨h1, h2⟩
  rw [Ne, Bool.eq_false_iff, not_not, Version.moreThan_iff] at h1 h2
  omega

theorem Version.lessOrEqual_trans (a b c : Version)
    (h1 : a.lessOrEqual b = true) (h2 : b.lessOrEqual c = true) :
    a.lessOrEqual c = true := by
  simp only [Version.lessOrEqual, Bool.not_eq_true'] at h1 h2 ⊢
  rw [Version.moreThan_eq_false_iff] at h1 h2 ⊢
  omega

theorem Version.lessThan_self (v : Version) : v.lessThan v = false := by
  simp [Version.lessThan, Version.moreOrEqual, Version.equals]

/-! ## C9 — `Version.Scan` on unsupported dynamic types -/

/-- C9: for every input value whose dynamic type is neither string nor byte
slice, `Version.Scan` returns a nil error and leaves the receiver unchanged —
the internally constructed "invalid type" error is discarded by the trailing
`return nil`, so a caller cannot distinguish an unsupported scan source from a
successful scan. -/
theorem scan_unsupported_type_nil_error_unchanged (v : Version) :
    Version.scan v ScanValue.other = (v, none) := rfl

/-! ## C8 — `ParseVersion` error conditions -/

/-- C8 counterexample: the 4-part string `"1.2.3.x"` has a non-integer slot
(`strconv.Atoi "x"` fails), yet `ParseVersion` succeeds, yielding `0` for that
slot — the claim predicts a `ParseError`. -/
theorem parseVersion_nonIntegerSlot_no_error :
    (goSplitDot "1.2.3.x").length = 4 ∧ (goAtoi "x").2 = false ∧
    ParseVersion "1.2.3.x" = Except.ok ⟨1, 2, 3, 0⟩ :=
  ⟨rfl, rfl, rfl⟩

/-- C8 (amended): `ParseVersion s` errs exactly when `s` does not split into
4 dot-delimited components; integer-parseability of the slots is not checked —
each slot is converted with `strconv.Atoi` and the conversion error discarded,
a syntactically invalid slot contributing `0`. -/
theorem parseVersion_error_iff_not_four_components (s : String) :
    ((∃ e, ParseVersion s = .error e) ↔ (goSplitDot s).length ≠ 4) ∧
    (∀ a b c d, goSplitDot s = [a, b, c, d] →
      ParseVersion s = .ok ⟨goAtoiVal a, goAtoiVal b, goAtoiVal c, goAtoiVal d⟩) := by
  constructor
  · rcases h : goSplitDot s with _ | ⟨a, _ | ⟨b, _ | ⟨c, _ | ⟨d, _ | _⟩⟩⟩⟩ <;>
      simp [ParseVersion, h]
  · intro a b c d h
    simp [ParseVersion, h]

/-- C8 witness: the amended theorem applied to the concrete string
`"5.6.7.8"`. -/
theorem parseVersion_error_iff_witness :
    ParseVersion "5.6.7.8" =
      .ok ⟨goAtoiVal "5", goAtoiVal "6", goAtoiVal "7", goAtoiVal "8"⟩ :=
  (parseVersion_error_iff_not_four_components "5.6.7.8").2 "5" "6" "7" "8" rfl

/-! ## C10 — `Register` with an unknown service name -/

theorem Services.lookup_insert (ss : Services) (name : String) (svc : ServiceInfo) :
    (Services.insert ss name svc).lookup name = some svc := by
  induction ss with
  | nil => simp [Services.insert, Services.lookup, List.find?]
  | cons p rest ih =>
      by_cases h : p.1 = name
      · simp [Services.insert, h, Services.lookup, List.find?]
      · simp only [Services.insert, h, if_false]
        simpa [Services.lookup, List.find?, h] using ih

theorem registerLoop_no_error (svc : ServiceInfo) (l : List Migration)
    (h : ∀ m ∈ l, (ParseVersion m.version).isOk = true) :
    (registerLoop svc l).2 = none := by
  induction l generalizing svc with
  | nil => rfl
  | cons mig rest ih =>
      have hm := h mig (List.mem_cons_self mig rest)
      rcases hp : ParseVersion mig.version with e | v
      · rw [hp] at hm; simp [Except.isOk, Except.toBool] at hm
      · have hrest : ∀ m ∈ rest, (ParseVersion m.version).isOk = true :=
          fun m hm' => h m (List.mem_cons_of_mem _ hm')
        simp only [registerLoop, hp]
        split <;> exact ih _ hrest

theorem registerLoop_preserves_hooks (svc : ServiceInfo) (l : List Migration) :
    (registerLoop svc l).1.hasConnectFunc = svc.hasConnectFunc ∧
    (registerLoop svc l).1.hasDisconnectFunc = svc.hasDisconnectFunc ∧
    (registerLoop svc l).1.targetVersion = svc.targetVersion := by
  induction l generalizing svc with
  | nil => exact ⟨rfl, rfl, rfl⟩
  | cons mig rest ih =>
      rcases hp : ParseVersion mig.version with e | v
      · simp [registerLoop, hp]
      · simp only [registerLoop, hp]
        split

        · exact ih svc
        · exact ih _

theorem registerLoop_set_monotone (svc : ServiceInfo) (l : List Migration)
    (i : Nat) (hi : i ∈ svc.registeredMigrationsSet) :
    i ∈ (registerLoop svc l).1.registeredMigrationsSet := by
  induction l generalizing svc with
  | nil => exact hi
  | cons mig rest ih =>
      rcases hp : ParseVersion mig.version with e | v
      · simpa [registerLoop, hp] using hi
      · simp only [registerLoop, hp]
        split

        · exact ih svc hi
        · exact ih _ (by simp [hi])

theorem registerLoop_set_covered (svc : ServiceInfo) (l : List Migration)
    (hinv : ∀ i ∈ svc.registeredMigrationsSet,
      ∃ r ∈ svc.registeredMigrations, r.identifier = i) :
    ∀ i ∈ (registerLoop svc l).1.registeredMigrationsSet,
      ∃ r ∈ (registerLoop svc l).1.registeredMigrations, r.identifier = i := by
  induction l generalizing svc with
  | nil => exact hinv
  | cons mig rest ih =>
      rcases hp : ParseVersion mig.version with e | v
      · simpa [registerLoop, hp] using hinv
      · simp only [registerLoop, hp]
        split

        · exact ih svc hinv
        · refine ih _ ?_
          intro i hi
          simp only [List.mem_append, List.mem_singleton] at hi
          rcases hi with hi | hi
          · rcases hinv i hi with ⟨r, hr, hid⟩
            exact ⟨r, by simp [hr], hid⟩
          · exact ⟨{ mig with identifier := getMigrationIdentifier v mig.migrationType },
              by simp, by simp [hi]⟩

theorem registerLoop_mem_set (svc : ServiceInfo) (l : List Migration)
    (hok : ∀ m ∈ l, (ParseVersion m.version).isOk = true)
    (m : Migration) (hm : m ∈ l) (v : Version) (hv : ParseVersion m.version = .ok v) :
    getMigrationIdentifier v m.migrationType ∈
      (registerLoop svc l).1.registeredMigrationsSet := by
  induction l generalizing svc with
  | nil => cases hm
  | cons mig rest ih =>
      rcases List.mem_cons.mp hm with rfl | hm'
      · simp only [registerLoop, hv]
        split

        · next hc =>
            exact registerLoop_set_monotone svc rest _ (by simpa using hc)
        · exact registerLoop_set_monotone _ rest _ (by simp)
      · have hokh := hok mig (List.mem_cons_self mig rest)
        rcases hp : ParseVersion mig.version with e | w
        · rw [hp] at hokh; simp [Except.isOk, Except.toBool] at hokh
        · have hrest : ∀ m' ∈ rest, (ParseVersion m'.version).isOk = true :=
            fun m' hm'' => hok m' (List.mem_cons_of_mem _ hm'')
          simp only [registerLoop, hp]
          split

          · exact ih svc hrest hm'
          · exact ih _ hrest hm'

/-- C10: calling `Register` with a service name that was never passed to
`RegisterService` does not fail: a fresh zero-value `ServiceInfo` — nil
connect/disconnect hooks and zero target version — is silently created and
stored under the name, the given entries are registered under it, and nil is
returned instead of a service-not-registered error. -/
theorem register_unknown_service_silently_creates (ss : Services) (name : String)
    (migs : List Migration)
    (hnew : ss.lookup name = none)
    (hok : ∀ m ∈ migs, (ParseVersion m.version).isOk = true) :
    (Register ss name migs).2 = none ∧
    ∃ svc, (Register ss name migs).1.lookup name = some svc ∧
      svc.hasConnectFunc = false ∧ svc.hasDisconnectFunc = false ∧
      svc.targetVersion = Version.zero ∧
      ∀ m ∈ migs, ∀ v, ParseVersion m.version = .ok v →
        ∃ r ∈ svc.registeredMigrations,
          r.identifier = getMigrationIdentifier v m.migrationType := by
  unfold Register
  rw [hnew]
  simp only [Option.getD_none, Option.getD_some]
  refine ⟨registerLoop_no_error _ _ hok, (registerLoop ServiceInfo.fresh migs).1,
    Services.lookup_insert ss name _, ?_, ?_, ?_, ?_⟩
  · exact (registerLoop_preserves_hooks _ _).1
  · exact (registerLoop_preserves_hooks _ _).2.1
  · exact (registerLoop_preserves_hooks _ _).2.2
  · intro m hm v hv
    refine registerLoop_set_covered ServiceInfo.fresh migs (by simp [ServiceInfo.fresh]) _ ?_
    exact registerLoop_mem_set ServiceInfo.fresh migs hok m hm v hv







/-- C10 witness: the theorem applied to the empty service map, the unknown
name `"svc1"` and one well-formed entry. -/
theorem register_unknown_service_witness :
    (Register [] "svc1" [exmVersioned]).2 = none ∧
    ((Register [] "svc1" [exmVersioned]).1.lookup "svc1").isSome = true := by
  have h := register_unknown_service_silently_creates [] "svc1" [exmVersioned] rfl
    (by intro m hm; rw [List.mem_singleton] at hm; subst hm; rfl)
  rcases h with ⟨h1, svc, h2, _⟩
  exact ⟨h1, by rw [h2]; rfl⟩

/-! ## C3 — the versioned pass of the forward planner -/

theorem mem_insertSorted (le : MigrationModel → MigrationModel → Bool)
    (x : MigrationModel) (l : List MigrationModel) (y : MigrationModel) :
    y ∈ insertSorted le x l ↔ y = x ∨ y ∈ l := by
  induction l with
  | nil => simp [insertSorted]
  | cons z zs ih =>
      unfold insertSorted
      split
      · simp
      · rw [List.mem_cons, ih, List.mem_cons]
        tauto

theorem mem_sortBy (le : MigrationModel → MigrationModel → Bool)
    (l : List MigrationModel) (y : MigrationModel) :
    y ∈ sortBy le l ↔ y ∈ l := by
  induction l with
  | nil => simp [sortBy]
  | cons x xs ih => simp [sortBy, mem_insertSorted, ih]

theorem pairwise_insertSorted (le : MigrationModel → MigrationModel → Bool)
    (htrans : ∀ a b c, le a b = true → le b c = true → le a c = true)
    (htotal : ∀ a b, (le a b || le b a) = true)
    (x : MigrationModel) (l : List MigrationModel)
    (h : List.Pairwise (fun a b => le a b = true) l) :
    List.Pairwise (fun a b => le a b = true) (insertSorted le x l) := by
  induction l with
  | nil => simp [insertSorted]
  | cons y ys ih =>
      rcases List.pairwise_cons.mp h with ⟨hy, hys⟩
      unfold insertSorted
      split
      · next hxy =>
          refine List.pairwise_cons.mpr ⟨?_, h⟩
          intro b hb
          rcases List.mem_cons.mp hb with rfl | hb'
          · exact hxy
          · exact htrans x y b hxy (hy b hb')
      · next hxy =>
          have hyx : le y x = true := by
            have := htotal x y
            rw [Bool.or_eq_true] at this
            rcases this with h' | h'
            · exact absurd h' hxy
            · exact h'
          refine List.pairwise_cons.mpr ⟨?_, ih hys⟩
          intro b hb
          rcases (mem_insertSorted le x ys b).mp hb with rfl | hb'
          · exact hyx
          · exact hy b hb'

theorem pairwise_sortBy (le : MigrationModel → MigrationModel → Bool)
    (htrans : ∀ a b c, le a b = true → le b c = true → le a c = true)
    (htotal : ∀ a b, (le a b || le b a) = true) (l : List MigrationModel) :
    List.Pairwise (fun a b => le a b = true) (sortBy le l) := by
  induction l with
  | nil => simp [sortBy]
  | cons x xs ih => exact pairwise_insertSorted le htrans htotal x _ ih

theorem sortMigrationsAsc_pairwise (l : List MigrationModel) :
    List.Pairwise (fun a b : MigrationModel => a.version.lessOrEqual b.version = true)
      (sortMigrationsAsc l) :=
  pairwise_sortBy (fun a b => a.version.lessOrEqual b.version)
    (fun _ _ _ hab hbc => Version.lessOrEqual_trans _ _ _ hab hbc)
    (fun a b => Version.lessOrEqual_total a.version b.version) l

theorem sortMigrationsDesc_pairwise (l : List MigrationModel) :
    List.Pairwise (fun a b : MigrationModel => b.version.lessOrEqual a.version = true)
      (sortMigrationsDesc l) :=
  pairwise_sortBy (fun a b => b.version.lessOrEqual a.version)
    (fun _ _ _ hab hbc => Version.lessOrEqual_trans _ _ _ hbc hab)
    (fun a b => Version.lessOrEqual_total b.version a.version) l

/-- C3: the versioned pass queues exactly the persisted records of type
`versioned` that are in neither state `success` nor `skipped`, whose version
is not greater than the target version and not less-or-equal to the saved
application version, and — when a baseline was planned — not less than the
planned baseline's version; the surviving records appear in ascending version
order. -/
theorem versionedPass_exact_membership_and_order (targetVersion : Version)
    (st : Store) (baseline : Option MigrationModel)
    (savedMigrations : List MigrationModel) :
    (∀ m, m ∈ planMigrationsVersioned targetVersion st baseline savedMigrations ↔
      (m ∈ savedMigrations ∧ m.type = TypeVersioned ∧
       m.state ≠ StateSuccess ∧ m.state ≠ StateSkipped ∧
       m.version.moreThan targetVersion = false ∧
       m.version.lessOrEqual (savedAppVersionD st) = false ∧
       ∀ b, baseline = some b → b.version.moreThan m.version = false)) ∧
    List.Pairwise (fun a b : MigrationModel => a.version.lessOrEqual b.version = true)
      (planMigrationsVersioned targetVersion st baseline savedMigrations) := by
  constructor
  · intro m
    unfold planMigrationsVersioned
    rw [List.mem_filter, sortMigrationsAsc, mem_sortBy]
    unfold versionedPassKeep
    rcases baseline with _ | b <;>
      simp [Bool.and_eq_true, decide_eq_true_eq, Bool.not_eq_true',
        decide_eq_false_iff_not, and_assoc]
  · exact List.Pairwise.filter _ (sortMigrationsAsc_pairwise savedMigrations)

/-- C3 witness: on the store whose saved version is 1.0.0.0, with target
1.0.0.1 and no planned baseline, a registered versioned record at 1.0.0.1 is
queued. -/
theorem versionedPass_witness :
    { exrVersioned101 with state := StateRegistered } ∈
      planMigrationsVersioned ⟨1, 0, 0, 1⟩ exStore100 none
        [exrVersioned100, { exrVersioned101 with state := StateRegistered }] := by
  refine ((versionedPass_exact_membership_and_order ⟨1, 0, 0, 1⟩ exStore100 none
    [exrVersioned100, { exrVersioned101 with state := StateRegistered }]).1 _).mpr
    ⟨by simp, rfl, by decide, by decide, by decide, by decide, ?_⟩
  intro b hb
  cases hb

/-! ## C5 — the downgrade planner -/

/-- C5: the downgrade planner plans exactly the persisted records of type
`versioned` whose version is not greater than the saved application version,
not less-or-equal to the target version, and whose state is not `undone`; the
plan is in descending version order, so baseline and repeatable records never
appear and the most recently applied surviving versioned record comes
first. -/
theorem downgradePlan_exact_membership_and_order (targetVersion : Version)
    (st : Store) (savedMigrations : List MigrationModel) :
    (∀ m, m ∈ downgradeMakePlan targetVersion st savedMigrations ↔
      (m ∈ savedMigrations ∧ m.type = TypeVersioned ∧
       m.version.moreThan (savedAppVersionD st) = false ∧
       m.version.lessOrEqual targetVersion = false ∧
       m.state ≠ StateUndone)) ∧
    List.Pairwise (fun a b : MigrationModel => b.version.lessOrEqual a.version = true)
      (downgradeMakePlan targetVersion st savedMigrations) := by
  constructor
  · intro m
    unfold downgradeMakePlan
    rw [List.mem_filter, sortMigrationsDesc, mem_sortBy]
    unfold downgradeKeep
    simp [Bool.and_eq_true, decide_eq_true_eq, Bool.not_eq_true',
      decide_eq_false_iff_not, and_assoc]
  · exact List.Pairwise.filter _ (sortMigrationsDesc_pairwise savedMigrations)

/-- C5 witness: with saved version 1.0.0.1 and target 1.0.0.0, the applied
versioned record at 1.0.0.1 is planned for undoing while the baseline at
1.0.0.0 is not. -/
theorem downgradePlan_witness :
    exrVersioned101 ∈
      downgradeMakePlan ⟨1, 0, 0, 0⟩
        { exStore100 with version := some ⟨1, 0, 0, 1⟩ }
        [exrBaseline100, exrVersioned101] ∧
    exrBaseline100 ∉
      downgradeMakePlan ⟨1, 0, 0, 0⟩
        { exStore100 with version := some ⟨1, 0, 0, 1⟩ }
        [exrBaseline100, exrVersioned101] := by
  constructor
  · exact ((downgradePlan_exact_membership_and_order _ _ _).1 _).mpr
      ⟨by simp, rfl, by decide, by decide, by decide⟩
  · intro hmem
    have h := ((downgradePlan_exact_membership_and_order _ _ _).1 _).mp hmem
    have : exrBaseline100.type = TypeVersioned := h.2.1
    simp [exrBaseline100, TypeBaseline, TypeVersioned] at this

/-! ## C7 — `CheckFulfillment` precedence -/

theorem forthcoming_ok_false_tables (svc : ServiceInfo) (st : Store)
    (h : hasForthcomingMigrations svc st = .ok false) :
    st.hasVersionTable = true ∧ st.hasMigrationsTable = true := by
  unfold hasForthcomingMigrations at h
  rcases hv : st.hasVersionTable <;> rcases hm : st.hasMigrationsTable <;>
    rw [hv, hm] at h <;> simp_all

theorem hasFailed_iff_exists (st : Store)
    (h1 : st.hasVersionTable = true) (h2 : st.hasMigrationsTable = true) :
    hasFailedMigrations st = true ↔ ∃ m ∈ st.migrations, m.state = StateFailure := by
  unfold hasFailedMigrations Repository.getMigrations
  rw [h1, h2]
  simp

/-- C7: `CheckFulfillment` evaluates its three conditions in the fixed order
forthcoming, failed, target-not-latest, returning the reason of the first one
that holds and fully-satisfied only when all three fail; in particular, when
the forthcoming check comes back false and some persisted record is in state
`failure`, the failed-migrations reason is reported regardless of the
target-version check. -/
theorem checkFulfillment_precedence (svc : ServiceInfo) (st : Store) :
    (checkFulfillment svc st = .forthcoming ↔
      hasForthcomingMigrations svc st = .ok true) ∧
    (checkFulfillment svc st = .failed ↔
      (hasForthcomingMigrations svc st = .ok false ∧
       ∃ m ∈ st.migrations, m.state = StateFailure)) ∧
    (checkFulfillment svc st = .targetNotLatest ↔
      (hasForthcomingMigrations svc st = .ok false ∧
       (¬ ∃ m ∈ st.migrations, m.state = StateFailure) ∧
       targetVersionNotLatest svc st = .ok true)) ∧
    (checkFulfillment svc st = .fulfilled ↔
      (hasForthcomingMigrations svc st = .ok false ∧
       (¬ ∃ m ∈ st.migrations, m.state = StateFailure) ∧
       targetVersionNotLatest svc st = .ok false)) := by
  rcases hf : hasForthcomingMigrations svc st with e | b
  · unfold checkFulfillment
    rw [hf]
    simp [hf]
  · cases b
    · obtain ⟨h1, h2⟩ := forthcoming_ok_false_tables svc st hf
      unfold checkFulfillment
      rw [hf]
      cases hcond : hasFailedMigrations st
      · have hnf : ¬ ∃ m ∈ st.migrations, m.state = StateFailure := by
          rw [← hasFailed_iff_exists st h1 h2, hcond]
          simp
        rcases ht : targetVersionNotLatest svc st with e | tb
        · simp [hf, hnf, ht]
        · cases tb <;> simp [hf, hnf, ht]
      · have hyes : ∃ m ∈ st.migrations, m.state = StateFailure :=
          (hasFailed_iff_exists st h1 h2).mp hcond
        simp [hf, hyes]
    · unfold checkFulfillment
      rw [hf]
      simp [hf]




/-- C7 witness: on a history with a `failure` record below the saved version,
the failed-migrations reason is reported. -/
theorem checkFulfillment_failed_witness :
    checkFulfillment exSvcEmptyCatalog exStoreWithFailure = .failed :=
  ((checkFulfillment_precedence exSvcEmptyCatalog exStoreWithFailure).2.1).mpr
    ⟨rfl, exrFailed100, by simp [exStoreWithFailure], rfl⟩

/-! ## C2 — dependency validation during `Migrate` -/

/-- C2 counterexample: a non-strict dependency declared at the minimum version
0.0.0.0 whose live saved version is exactly 0.0.0.0 (live ≥ declared) is
nevertheless rejected, because `executeMigration` rejects a zero live version
(`version.Equals(models.Version{})`) before ever reaching the comparison — the
claim predicts that a non-strict dependency passes at the declared version. -/
theorem dependency_zero_live_version_rejected :
    (Version.moreOrEqual ⟨0, 0, 0, 0⟩ ⟨0, 0, 0, 0⟩ = true) ∧
    ParseVersion "0.0.0.0" = .ok ⟨0, 0, 0, 0⟩ ∧
    checkDependency
      (fun n => if n = "auth" then
        some { hasConnectFunc := true,
               store := { hasVersionTable := true, hasMigrationsTable := true,
                          version := some ⟨0, 0, 0, 0⟩, migrations := [],
                          nextId := 1 } }
        else none)
      { name := "auth", version := "0.0.0.0", strict := false } =
      .error "dependency is not valid" := by
  refine ⟨by decide, rfl, rfl⟩

theorem validateDependencies_error_of_mem (services : String → Option DepService)
    (l : List DbDependency) (d : DbDependency) (hd : d ∈ l)
    (he : ∃ e, checkDependency services d = .error e) :
    ∃ e, validateDependencies services l = .error e := by
  induction l with
  | nil => cases hd
  | cons h rest ih =>
      rcases hc : checkDependency services h with e | u
      · exact ⟨e, by simp [validateDependencies, hc]⟩
      · rcases List.mem_cons.mp hd with rfl | hd'
        · rcases he with ⟨e, he⟩
          rw [hc] at he
          cases he
        · rcases ih hd' with ⟨e, hrec⟩
          exact ⟨e, by simp [validateDependencies, hc, hrec]⟩

/-- C2 (amended): for a dependency whose named service is registered with a
connect hook, whose version table exists and whose live saved version `v` is
present and nonzero (the zero version 0.0.0.0 is rejected before the
comparison), and whose declared version parses to `dv`: the validation passes
precisely when `v = dv` under `strict`, and precisely when `v ≥ dv` otherwise;
moreover every migration declaring a failing dependency fails before its
action is attempted. -/
theorem dependencyCheck_strict_exact_nonstrict_min
    (services : String → Option DepService) (d : DbDependency) (s : DepService)
    (v dv : Version)
    (hs : services d.name = some s)
    (hc : s.hasConnectFunc = true)
    (ht : s.store.hasVersionTable = true)
    (hv : s.store.version = some v)
    (hnz : v ≠ Version.zero)
    (hd : ParseVersion d.version = .ok dv) :
    (checkDependency services d = .ok () ↔
      (if d.strict = true then v = dv else v.moreOrEqual dv = true)) ∧
    (∀ mig ar, d ∈ mig.dependency → checkDependency services d ≠ .ok () →
      (executeMigration services ar mig).2 = false ∧
      ∃ e, (executeMigration services ar mig).1 = .error e) := by
  constructor
  · unfold checkDependency
    rw [hs]
    simp only [hc, ht, Bool.not_true, Bool.false_eq_true, if_false]
    unfold Repository.getVersion
    rw [hv]
    have hz : v.equals Version.zero = false := by
      simp [Version.equals, hnz]
    simp only [hz, Bool.false_eq_true, if_false]
    rw [hd]
    by_cases hstrict : d.strict = true
    · by_cases heq : v = dv
      · have h1 : v.equals dv = true := by simp [Version.equals, heq]
        simp [hstrict, h1, heq, Version.lessThan_self, Version.equals]
      · have : v.equals dv = false := by simp [Version.equals, heq]
        simp [hstrict, this, heq]
    · have hsf : d.strict = false := by
        rw [Bool.eq_false_iff]
        exact hstrict
      rw [Version.moreOrEqual_eq_not_lessThan]
      rcases hlt : v.lessThan dv with _ | _ <;> simp [hsf, hlt]
  · intro mig ar hdm hne
    have he : ∃ e, checkDependency services d = .error e := by
      rcases hcd : checkDependency services d with e | u
      · exact ⟨e, rfl⟩
      · cases u; exact absurd hcd hne
    rcases validateDependencies_error_of_mem services mig.dependency d hdm he
      with ⟨e, hval⟩
    unfold executeMigration
    split
    · exact ⟨rfl, _, rfl⟩
    · rw [hval]
      exact ⟨rfl, e, rfl⟩

/-- C2 witness: a non-strict dependency declared at 1.0.0.0 passes against a
live saved version 1.0.0.1. -/
theorem dependencyCheck_witness :
    checkDependency
      (fun n => if n = "auth" then
        some { hasConnectFunc := true,
               store := { hasVersionTable := true, hasMigrationsTable := true,
                          version := some ⟨1, 0, 0, 1⟩, migrations := [],
                          nextId := 1 } }
        else none)
      { name := "auth", version := "1.0.0.0", strict := false } = .ok () := by
  refine ((dependencyCheck_strict_exact_nonstrict_min _
    { name := "auth", version := "1.0.0.0", strict := false }
    _ ⟨1, 0, 0, 1⟩ ⟨1, 0, 0, 0⟩ rfl rfl rfl rfl (by decide) rfl).1).mpr ?_
  decide

/-! ## C1 — reconciliation version-regression guard -/


/-- C1 counterexample: a catalog entry (the repeatable one at 1.0.0.0) whose
version is equal to — hence less than or equal to — the version of an
already-persisted record (the versioned record at 1.0.0.0) is new by
identifier, and `saveNewMigrations` stages and persists it without any error,
writing a second record — the claim predicts a structural failure with no
write. -/
theorem saveNewMigrations_equal_version_not_rejected :
    migrationIsNew exmRepeatable exStore100.migrations = true ∧
    ParseVersion exmRepeatable.version = .ok exrVersioned100.version ∧
    exrVersioned100 ∈ exStore100.migrations ∧
    (saveNewMigrations exSvcRepeatable exStore100).1.isOk = true ∧
    (saveNewMigrations exSvcRepeatable exStore100).2.migrations.length = 2 := by
  exact ⟨by decide, rfl, by simp [exStore100], by decide, by decide⟩

/-- C1 (amended): during reconciliation, staging any new catalog entry whose
version is strictly less than the version of some already-persisted record
fails with a structural error, and the failure occurs before any new record is
written — the store is returned unchanged. -/
theorem saveNewMigrations_regression_guard (svc : ServiceInfo) (st : Store)
    (reqs : List SaveMigrationRequest)
    (hb : buildNewMigrations svc.registeredMigrations (Repository.getMigrations st) =
      .ok reqs)
    (n : SaveMigrationRequest) (hn : n ∈ reqs)
    (s : MigrationModel) (hs : s ∈ st.migrations)
    (hlt : n.version.lessThan s.version = true) :
    (∃ e, (saveNewMigrations svc st).1 = .error e) ∧
    (saveNewMigrations svc st).2 = st := by
  have hguard : versionRegressionGuard reqs (Repository.getMigrations st) = true := by
    unfold versionRegressionGuard
    rw [List.any_eq_true]
    refine ⟨n, hn, ?_⟩
    rw [List.any_eq_true]
    rw [Version.lessThan_eq_moreThan] at hlt
    exact ⟨s, hs, hlt⟩
  simp only [saveNewMigrations, hb, hguard, if_true]
  exact ⟨⟨_, rfl⟩, trivial⟩



/-- C1 witness: staging the 0.9.0.0 entry against the history holding 1.0.0.0
errs and leaves the store unchanged. -/
theorem saveNewMigrations_regression_guard_witness :
    (∃ e, (saveNewMigrations exSvcLow exStore100).1 = .error e) ∧
    (saveNewMigrations exSvcLow exStore100).2 = exStore100 := by
  refine saveNewMigrations_regression_guard exSvcLow exStore100
    [{ rank := 0, type := TypeVersioned, version := ⟨0, 9, 0, 0⟩,
       description := "late arrival", state := StateRegistered }]
    rfl
    { rank := 0, type := TypeVersioned, version := ⟨0, 9, 0, 0⟩,
      description := "late arrival", state := StateRegistered }
    (by simp) exrVersioned100 (by simp [exStore100]) (by decide)

/-! ## C6 — failure policy of the `Migrate` execution loop -/

theorem markSkippedBefore_version (st : Store) (baselineId : Nat)
    (l : List MigrationModel) :
    (markSkippedBefore st baselineId l).version = st.version := by
  induction l generalizing st with
  | nil => rfl
  | cons m rest ih =>
      unfold markSkippedBefore
      split
      · rfl
      · exact ih _

/-- C6: when executing a plan entry fails during `Migrate` and the entry's
allow-failure flag is not set, the record is persisted in state `failure` and
the loop stops, returning the execution error without touching the remaining
plan; when allow-failure is set, the failure is swallowed and the pipeline
persists the entry as a success — overwriting the version record for
`versioned` and `baseline` types — and continues with the remaining plan. -/
theorem migrate_failure_policy (svc : ServiceInfo)
    (services : String → Option DepService)
    (ar : MigrationModel → Migration → Except String Unit)
    (saved : List MigrationModel) (st : Store)
    (mm : MigrationModel) (plan : List MigrationModel)
    (mig : Migration) (e : String)
    (hf : findMigration svc mm = .ok (some mig))
    (hx : (executeMigration services (ar mm mig) mig).1 = .error e) :
    (mig.isAllowFailure = false →
      migrateLoop svc services ar saved st (mm :: plan) =
        (Repository.updateMigrationState st mm StateFailure, .error e)) ∧
    (mig.isAllowFailure = true →
      ∀ v, ParseVersion mig.version = .ok v →
        ∃ st', saveStateOnSuccessfulMigration saved mm mig st = .ok st' ∧
          migrateLoop svc services ar saved st (mm :: plan) =
            migrateLoop svc services ar saved st' plan ∧
          ((mig.migrationType = TypeVersioned ∨ mig.migrationType = TypeBaseline) →
            st'.version = some v)) := by
  constructor
  · intro hnf
    simp only [migrateLoop, hf, hx, hnf, Bool.not_false, if_true]
  · intro haf v hv
    have hsv : saveStateOnSuccessfulMigration saved mm mig st =
        .ok (Repository.updateMigrationStateExecuted
          (if mig.migrationType = TypeVersioned then
            Repository.saveVersion st v
          else if mig.migrationType = TypeBaseline then
            markSkippedBefore (Repository.saveVersion st v) mm.id saved
          else st) mm StateSuccess (mig.checkSum.getD "")) := by
      unfold saveStateOnSuccessfulMigration
      rw [hv]
    refine ⟨_, hsv, ?_, ?_⟩
    · simp only [migrateLoop, hf, hx, haf, Bool.not_true, Bool.false_eq_true,
        if_false, hsv]
    · intro htype
      rcases htype with htype | htype
      · simp [Repository.updateMigrationStateExecuted, htype,
          Repository.saveVersion]
      · have hne : mig.migrationType = TypeVersioned ↔ False := by
          rw [htype]
          simp [TypeBaseline, TypeVersioned]
        simp [Repository.updateMigrationStateExecuted, htype, hne,
          markSkippedBefore_version, Repository.saveVersion,
          TypeBaseline, TypeVersioned]



/-- C6 witness: a failing non-allow-failure entry is persisted as `failure`
and the loop returns the execution error. -/
theorem migrate_failure_policy_witness :
    migrateLoop exSvcVersioned (fun _ => none) (fun _ _ => .error "boom")
      [exrVersioned100, exrRegistered101] exStore100 [exrRegistered101] =
      (Repository.updateMigrationState exStore100 exrRegistered101 StateFailure,
        .error "boom") :=
  (migrate_failure_policy exSvcVersioned (fun _ => none) (fun _ _ => .error "boom")
    [exrVersioned100, exrRegistered101] exStore100 exrRegistered101 []
    exmVersioned "boom" rfl rfl).1 rfl

/-! ## C4 — persistence after a successful downgrade -/

theorem prevVersionScan_cons (uv : Version) (m : MigrationModel)
    (rest : List MigrationModel) (prev : Option MigrationModel) :
    prevVersionScan uv (m :: rest) prev =
      if m.type = TypeVersioned && m.version.equals uv then
        (match prev with | none => Version.zero | some p => p.version)
      else prevVersionScan uv rest (some m) := rfl

theorem prevVersionScan_spec (uv : Version) (l : List MigrationModel)
    (prev : Option MigrationModel) :
    (List.findIdx? (fun m => m.type = TypeVersioned && m.version.equals uv) l =
        none → prevVersionScan uv l prev = Version.zero) ∧
    (List.findIdx? (fun m => m.type = TypeVersioned && m.version.equals uv) l =
        some 0 →
      prevVersionScan uv l prev =
        (match prev with | none => Version.zero | some q => q.version)) ∧
    (∀ i, List.findIdx? (fun m => m.type = TypeVersioned && m.version.equals uv) l =
        some (i + 1) →
      ∀ q, l[i]? = some q → prevVersionScan uv l prev = q.version) := by
  induction l generalizing prev with
  | nil =>
      refine ⟨fun _ => rfl, fun h => ?_, fun i h => ?_⟩ <;> simp at h
  | cons m rest ih =>
      by_cases hm : (m.type = TypeVersioned && m.version.equals uv) = true
      · rw [List.findIdx?_cons]
        refine ⟨fun h => ?_, fun _ => ?_, fun i h => ?_⟩
        · rw [if_pos hm] at h; simp at h
        · rw [prevVersionScan_cons, if_pos hm]
        · rw [if_pos hm] at h
          simp at h
      · rw [List.findIdx?_cons, if_neg hm, List.findIdx?_succ]
        have hscan : prevVersionScan uv (m :: rest) prev =
            prevVersionScan uv rest (some m) := by
          rw [prevVersionScan_cons, if_neg hm]
        refine ⟨fun h => ?_, fun h => ?_, fun i h => ?_⟩
        · rcases ho : List.findIdx? (fun m => m.type = TypeVersioned &&
              m.version.equals uv) rest 0 with _ | j
          · rw [hscan]
            exact (ih (some m)).1 ho
          · rw [ho] at h; simp at h
        · rcases ho : List.findIdx? (fun m => m.type = TypeVersioned &&
              m.version.equals uv) rest 0 with _ | j
          · rw [ho] at h; simp at h
          · rw [ho] at h
            simp at h
        · rcases ho : List.findIdx? (fun m => m.type = TypeVersioned &&
              m.version.equals uv) rest 0 with _ | j
          · rw [ho] at h; simp at h
          · rw [ho] at h
            simp at h
            have hji : j = i := by omega
            subst hji
            rcases j with _ | k
            · intro q hq
              rw [List.getElem?_cons_zero] at hq
              cases hq
              rw [hscan]
              exact (ih (some m)).2.1 ho
            · intro q hq
              rw [List.getElem?_cons_succ] at hq
              rw [hscan]
              exact (ih (some m)).2.2 k ho q hq

/-- C4 counterexample: undoing the versioned record 1.0.0.1 whose only lower
neighbour in the repeatable-excluded history is the baseline record at
1.0.0.0 saves 1.0.0.0 — the baseline's version, not a versioned record's —
whereas the claim, with no lower versioned record remaining, predicts the zero
version 0.0.0.0. -/
theorem downgrade_saved_version_can_be_baseline :
    saveVersionDowngrade exrVersioned101 [exrBaseline100, exrVersioned101] =
      ⟨1, 0, 0, 0⟩ ∧
    (⟨1, 0, 0, 0⟩ : Version).equals Version.zero = false ∧
    (exrBaseline100.type == TypeVersioned) = false ∧
    exrVersioned101.version.lessThan exrVersioned101.version = false := by
  refine ⟨by decide, by decide, by decide, by decide⟩

/-- C4 (amended): after a plan entry is successfully undone, its record is
persisted in state `undone` with the freshly evaluated checksum, and the
version record is overwritten with the version of the record (of any
non-repeatable type, baseline included) immediately preceding the undone
record's first match in the repeatable-excluded, ascending-sorted history — or
the zero version when the match is first or absent. -/
theorem downgrade_persists_undone_and_prev_version
    (saved : List MigrationModel) (mm : MigrationModel) (mig : Migration)
    (st : Store) :
    ((saveStateAfterDowngrading saved mm mig st).migrations =
      st.migrations.map fun r =>
        if r.id = mm.id then
          { r with state := StateUndone, checksum := mig.checkSum.getD "" }
        else r) ∧
    ((saveStateAfterDowngrading saved mm mig st).version =
      some (saveVersionDowngrade mm saved)) ∧
    (∀ l, l = sortMigrationsAsc (saved.filter fun m => !(m.type = TypeRepeatable)) →
      (List.findIdx? (fun m => m.type = TypeVersioned && m.version.equals mm.version)
          l = none → saveVersionDowngrade mm saved = Version.zero) ∧
      (List.findIdx? (fun m => m.type = TypeVersioned && m.version.equals mm.version)
          l = some 0 → saveVersionDowngrade mm saved = Version.zero) ∧
      (∀ i, List.findIdx?
          (fun m => m.type = TypeVersioned && m.version.equals mm.version) l =
          some (i + 1) →
        ∀ q, l[i]? = some q → saveVersionDowngrade mm saved = q.version)) := by
  refine ⟨rfl, rfl, ?_⟩
  intro l hl
  subst hl
  have h := prevVersionScan_spec mm.version
    (sortMigrationsAsc (saved.filter fun m => !(m.type = TypeRepeatable))) none
  exact ⟨fun hn => h.1 hn, fun h0 => h.2.1 h0, fun i hi q hq => h.2.2 i hi q hq⟩

/-- C4 witness: the amended rule applied to the baseline-before-versioned
history — the record preceding the undone one is the baseline, whose version
is saved. -/
theorem downgrade_prev_version_witness :
    saveVersionDowngrade exrVersioned101 [exrBaseline100, exrVersioned101] =
      exrBaseline100.version := by
  have h := (downgrade_persists_undone_and_prev_version
    [exrBaseline100, exrVersioned101] exrVersioned101 exmVersioned exStore100).2.2
    (sortMigrationsAsc
      ([exrBaseline100, exrVersioned101].filter fun m => !(m.type = TypeRepeatable)))
    rfl
  exact h.2.2 0 (by decide) exrBaseline100 (by decide)

end DbMigrator
